import Mathlib

/-!
Verification of the RAG engine of a Django customer-service platform:
the chunking/embedding pipeline (`EmbeddingService`), the retriever, the
QnA matcher and the response composer (`ChatService`), together with the
knowledge-item deletion signal.  Each definition is a shallow embedding of
the corresponding Python function; machine-level details of CPython
(string slicing with negative indices, `str.strip`, whitespace `split`,
truthiness) are modelled explicitly where the control flow depends on them.
-/

/-- Characters stripped by Python `str.strip()` and used as separators by
`str.split()` (ASCII whitespace). -/
def isPySpace (c : Char) : Bool :=
  c = ' ' || c = '\t' || c = '\n' || c = '\x0d' || c = '\x0b' || c = '\x0c'

/-- Python `str.strip()` on the right: drop trailing whitespace. -/
def pyTrimRight (l : List Char) : List Char :=
  (l.reverse.dropWhile isPySpace).reverse

/-- Python `str.strip()`: drop leading and trailing whitespace. -/
def pyTrim (l : List Char) : List Char :=
  pyTrimRight (l.dropWhile isPySpace)

/-- Normalisation of one slice endpoint, CPython semantics: a negative
index is shifted by the length, then the result is clamped to `[0, L]`. -/
def pyBound (L : ℕ) (k : ℤ) : ℕ :=
  min ((if k < 0 then k + L else k).toNat) L

/-- Python slice `l[a:b]` (step 1), including negative-index shifting and
clamping. -/
def pySlice (l : List Char) (a b : ℤ) : List Char :=
  (l.take (pyBound l.length b)).drop (pyBound l.length a)

/-- Python indexing `l[k]`: a negative index is shifted by the length;
out-of-range access is an `IndexError`, modelled as `none`. -/
def pyIndex (l : List Char) (k : ℤ) : Option Char :=
  let k' : ℤ := if k < 0 then k + l.length else k
  if k' < 0 then none else l.get? k'.toNat

/-- Outcome of running the chunking loop with explicit fuel: `out` means
the fuel was exhausted (the Python loop has not terminated within that
many iterations), `err` is an uncaught `IndexError` raised by
`text[end - i - 1]`, `ok` is normal termination. -/
inductive ChunkRes where
  | out : ChunkRes
  | err : ChunkRes
  | ok : List (List Char) → ChunkRes
deriving DecidableEq

/-- The sentence-boundary search of `EmbeddingService.chunk_text`:
`for i in range(min(100, chunk_size // 4)): if end - i > start and
text[end - i - 1] in '.!?': end = end - i; break`.  The list argument is
the (ascending) list of values taken by `i`; the result is the new `end`
when a boundary is found. -/
def snapSearch (cs : List Char) (start e : ℤ) : List ℕ → Except Unit (Option ℤ)
  | [] => Except.ok none
  | i :: rest =>
    if start < e - i then
      match pyIndex cs (e - i - 1) with
      | none => Except.error ()
      | some c =>
        if c = '.' || c = '!' || c = '?' then Except.ok (some (e - i))
        else snapSearch cs start e rest
    else snapSearch cs start e rest

/-- Window-end computation of one iteration of `chunk_text`:
`end = start + chunk_size`, then, when `end < len(text)`, the
sentence-boundary snapping of `snapSearch` may pull `end` back. -/
def chunkStep (cs : List Char) (size : ℕ) (start : ℤ) : Except Unit ℤ :=
  if start + size < (cs.length : ℤ) then
    match snapSearch cs start (start + size) (List.range (min 100 (size / 4))) with
    | Except.error _ => Except.error ()
    | Except.ok none => Except.ok (start + size)
    | Except.ok (some e') => Except.ok e'
  else Except.ok (start + size)

/-- One-for-one model of the `while start < len(text)` loop of
`EmbeddingService.chunk_text`, with explicit fuel.  Each iteration:
`end = start + chunk_size`, sentence-boundary snapping when
`end < len(text)` (`chunkStep`), `chunk = text[start:end].strip()`,
non-empty chunks are appended, and the window advances by
`start = end - overlap` (the inner `if start >= len(text): break`
coincides with the loop condition checked on the next iteration). -/
def chunkAux (cs : List Char) (size overlap : ℕ) : ℕ → ℤ → List (List Char) → ChunkRes
  | 0, _, _ => ChunkRes.out
  | fuel + 1, start, acc =>
    if start < (cs.length : ℤ) then
      match chunkStep cs size start with
      | Except.error _ => ChunkRes.err
      | Except.ok e =>
        chunkAux cs size overlap fuel (e - overlap)
          (if (pyTrim (pySlice cs start e)).isEmpty then acc
           else acc ++ [pyTrim (pySlice cs start e)])
    else ChunkRes.ok acc

/-- Chunker core on character lists: the `len(text) <= chunk_size` fast
path returns `[text]`; otherwise the sliding-window loop runs.  The loop
is given `length + 1` units of fuel, an amount proven sufficient for the
default parameters (`chunkAux_ok`); configurations on which the Python
loop diverges or raises fall back to `[]`. -/
def chunkTextChars (cs : List Char) (size overlap : ℕ) : List (List Char) :=
  if cs.length ≤ size then [cs]
  else
    match chunkAux cs size overlap (cs.length + 1) 0 [] with
    | ChunkRes.ok r => r
    | _ => []

/-- `EmbeddingService.chunk_text(text, chunk_size, overlap)`.  The service
defaults are `chunk_size = 1000`, `overlap = 200`. -/
def chunk_text (text : String) (size overlap : ℕ) : List String :=
  (chunkTextChars text.toList size overlap).map (fun l => String.mk l)

/-- Termination of the chunking loop on a given input, phrased through
the fuelled model: some amount of fuel makes the loop return normally. -/
def chunkLoopTerminates (cs : List Char) (size overlap : ℕ) : Prop :=
  ∃ fuel res, chunkAux cs size overlap fuel 0 [] = ChunkRes.ok res

/-- Parameter regimes in which every loop iteration makes strict forward
progress: the window end is at least `start + size - (min 100 (size/4) - 1)`,
so `overlap + max 1 (min 100 (size / 4)) ≤ size` forces `start` to grow. -/
def goodParams (size overlap : ℕ) : Prop :=
  overlap + max 1 (min 100 (size / 4)) ≤ size

lemma pyIndex_of_bounds (l : List Char) (k : ℤ) (h0 : 0 ≤ k) (hk : k < (l.length : ℤ)) :
    ∃ c, pyIndex l k = some c := by
  unfold pyIndex
  rw [if_neg (by omega)]
  rw [if_neg (by omega)]
  have hlt : k.toNat < l.length := by omega
  exact ⟨l.get ⟨k.toNat, hlt⟩, List.get?_eq_get hlt⟩

lemma snapSearch_ok (cs : List Char) (start e : ℤ) (h0 : 0 ≤ start)
    (he : e < (cs.length : ℤ)) :
    ∀ L : List ℕ, ∃ r, snapSearch cs start e L = Except.ok r ∧
      ∀ e', r = some e' → start < e' ∧ e' ≤ e ∧ ∃ i ∈ L, e' = e - i := by
  intro L
  induction L with
  | nil => exact ⟨none, rfl, by intro e' h; cases h⟩
  | cons i rest ih =>
    by_cases hc : start < e - i
    · have hidx : ∃ c, pyIndex cs (e - i - 1) = some c := by
        apply pyIndex_of_bounds <;> omega
      obtain ⟨c, hcx⟩ := hidx
      by_cases hch : (c = '.' || c = '!' || c = '?') = true
      · refine ⟨some (e - i), ?_, ?_⟩
        · simp only [snapSearch, if_pos hc, hcx, if_pos hch]
        · intro e' h
          injection h with h
          subst h
          exact ⟨hc, by omega, i, List.mem_cons_self i rest, rfl⟩
      · obtain ⟨r, hr, hb⟩ := ih
        refine ⟨r, ?_, ?_⟩
        · simp only [snapSearch, if_pos hc, hcx, if_neg hch]
          exact hr
        · intro e' h
          obtain ⟨h1, h2, j, hj, hje⟩ := hb e' h
          exact ⟨h1, h2, j, List.mem_cons_of_mem i hj, hje⟩
    · obtain ⟨r, hr, hb⟩ := ih
      refine ⟨r, ?_, ?_⟩
      · simp only [snapSearch, if_neg hc]
        exact hr
      · intro e' h
        obtain ⟨h1, h2, j, hj, hje⟩ := hb e' h
        exact ⟨h1, h2, j, List.mem_cons_of_mem i hj, hje⟩

lemma chunkStep_ok (cs : List Char) (size overlap : ℕ) (h : goodParams size overlap)
    (start : ℤ) (h0 : 0 ≤ start) :
    ∃ e, chunkStep cs size start = Except.ok e ∧
      start + overlap + 1 ≤ e ∧ e ≤ start + size := by
  unfold goodParams at h
  unfold chunkStep
  by_cases hlt : start + size < (cs.length : ℤ)
  · rw [if_pos hlt]
    obtain ⟨r, hr, hb⟩ := snapSearch_ok cs start (start + size) h0 hlt
      (List.range (min 100 (size / 4)))
    match r, hr with
    | none, hr => exact ⟨start + size, by rw [hr], by omega, by omega⟩
    | some e', hr =>
      obtain ⟨h1, h2, i, hi, hie⟩ := hb e' rfl
      rw [List.mem_range] at hi
      refine ⟨e', by rw [hr], by omega, by omega⟩
  · rw [if_neg hlt]
    exact ⟨start + size, rfl, by omega, by omega⟩

/-- Main loop invariant of the chunker in the good parameter regime: the
loop returns normally within `len - start` further iterations, the emitted
chunks are exactly the stripped slices of a list of window spans (empty
results skipped), every span is a sub-window of width at most `size`
starting at or after the current position, and the spans jointly cover
every remaining character position. -/
lemma chunkAux_ok (cs : List Char) (size overlap : ℕ) (h : goodParams size overlap) :
    ∀ (fuel : ℕ) (start : ℤ) (acc : List (List Char)),
      0 ≤ start → (cs.length : ℤ) - start < fuel → 0 < fuel →
      ∃ sp : List (ℤ × ℤ),
        chunkAux cs size overlap fuel start acc =
          ChunkRes.ok (acc ++ (sp.map (fun p => pyTrim (pySlice cs p.1 p.2))).filter
            (fun c => !c.isEmpty)) ∧
        (∀ p ∈ sp, start ≤ p.1 ∧ p.1 < p.2 ∧ p.2 ≤ p.1 + size) ∧
        (∀ i : ℤ, start ≤ i → i < (cs.length : ℤ) → ∃ p ∈ sp, p.1 ≤ i ∧ i < p.2) := by
  intro fuel
  induction fuel with
  | zero =>
    intro start acc h0 hf hp
    omega
  | succ fuel ih =>
    intro start acc h0 hf _
    by_cases hs : start < (cs.length : ℤ)
    · obtain ⟨e, he, he1, he2⟩ := chunkStep_ok cs size overlap h start h0
      obtain ⟨sp', heq, hbnd, hcov⟩ := ih (e - overlap)
        (if (pyTrim (pySlice cs start e)).isEmpty then acc
         else acc ++ [pyTrim (pySlice cs start e)])
        (by omega) (by omega) (by omega)
      refine ⟨(start, e) :: sp', ?_, ?_, ?_⟩
      · rw [chunkAux, if_pos hs, he]
        refine Eq.trans heq ?_
        congr 1
        rw [List.map_cons, List.filter_cons]
        by_cases hemp : (pyTrim (pySlice cs start e)).isEmpty
        · simp [hemp]
        · simp [hemp]
      · intro p hp
        rcases List.mem_cons.mp hp with hp | hp
        · subst hp
          exact ⟨le_refl _, by omega, by omega⟩
        · obtain ⟨b1, b2, b3⟩ := hbnd p hp
          exact ⟨by omega, b2, b3⟩
      · intro i hi hilen
        by_cases hie : i < e
        · exact ⟨(start, e), List.mem_cons_self _ _, hi, hie⟩
        · obtain ⟨p, hp, hp1, hp2⟩ := hcov i (by omega) hilen
          exact ⟨p, List.mem_cons_of_mem _ hp, hp1, hp2⟩
    · refine ⟨[], ?_, ?_, ?_⟩
      · rw [chunkAux, if_neg hs]
        simp
      · intro p hp
        cases hp
      · intro i hi hilen
        omega

lemma pySlice_length_le (l : List Char) (a b : ℤ) (h0 : 0 ≤ a) (hb : 0 ≤ b) :
    (pySlice l a b).length ≤ (b - a).toNat := by
  unfold pySlice pyBound
  rw [if_neg (by omega), if_neg (by omega)]
  simp only [List.length_drop, List.length_take]
  omega

lemma pyTrim_length_le (l : List Char) : (pyTrim l).length ≤ l.length := by
  unfold pyTrim pyTrimRight
  calc ((l.dropWhile isPySpace).reverse.dropWhile isPySpace).reverse.length
      = ((l.dropWhile isPySpace).reverse.dropWhile isPySpace).length := by
        rw [List.length_reverse]
    _ ≤ (l.dropWhile isPySpace).reverse.length := (List.dropWhile_sublist _).length_le
    _ = (l.dropWhile isPySpace).length := by rw [List.length_reverse]
    _ ≤ l.length := (List.dropWhile_sublist _).length_le

lemma string_mk_ne_empty_iff (l : List Char) : String.mk l ≠ "" ↔ l ≠ [] := by
  rw [ne_eq, String.ext_iff]

/-- Claim C7: chunker postconditions.  For text of length at most the
chunk size, `chunk_text` is the one-element list `[text]`.  For longer
text under the default parameters `(1000, 200)`, every returned chunk is
non-empty and of length at most the chunk size (hence at most size plus
any slack), and the chunks are exactly the whitespace-stripped slices of
a list of window spans — each of width at most `1000` — that jointly
cover every character position of the original text, consecutive spans
overlapping as the loop dictates. -/
theorem chunk_text_postconditions (text : String) :
    (text.length ≤ 1000 → chunk_text text 1000 200 = [text]) ∧
    (1000 < text.length →
      (∀ c ∈ chunk_text text 1000 200, c ≠ "" ∧ c.length ≤ 1000) ∧
      ∃ sp : List (ℤ × ℤ),
        chunkTextChars text.toList 1000 200 =
          (sp.map (fun p => pyTrim (pySlice text.toList p.1 p.2))).filter
            (fun c => !c.isEmpty) ∧
        chunk_text text 1000 200 =
          (chunkTextChars text.toList 1000 200).map (fun l => String.mk l) ∧
        (∀ p ∈ sp, 0 ≤ p.1 ∧ p.1 < p.2 ∧ p.2 ≤ p.1 + 1000) ∧
        (∀ i : ℤ, 0 ≤ i → i < (text.length : ℤ) → ∃ p ∈ sp, p.1 ≤ i ∧ i < p.2)) := by
  have hlen : text.toList.length = text.length := rfl
  constructor
  · intro h
    unfold chunk_text chunkTextChars
    rw [if_pos (by omega)]
    rfl
  · intro h
    have hgood : goodParams 1000 200 := by
      unfold goodParams
      decide
    obtain ⟨sp, heq, hbnd, hcov⟩ :=
      chunkAux_ok text.toList 1000 200 hgood (text.toList.length + 1) 0 []
        le_rfl (by omega) (by omega)
    have hchars : chunkTextChars text.toList 1000 200 =
        (sp.map (fun p => pyTrim (pySlice text.toList p.1 p.2))).filter
          (fun c => !c.isEmpty) := by
      unfold chunkTextChars
      rw [if_neg (by omega), heq]
      rw [List.nil_append]
    refine ⟨?_, sp, hchars, rfl, ?_, ?_⟩
    · intro c hc
      unfold chunk_text at hc
      obtain ⟨l, hl, hlc⟩ := List.mem_map.mp hc
      rw [hchars] at hl
      have hl' := List.mem_filter.mp hl
      obtain ⟨p, hp, hpl⟩ := List.mem_map.mp hl'.1
      obtain ⟨b0, b1, b2⟩ := hbnd p hp
      constructor
      · rw [← hlc]
        rw [string_mk_ne_empty_iff]
        intro hnil
        rw [hnil] at hl'
        simp at hl'
      · rw [← hlc]
        show l.length ≤ 1000
        rw [← hpl]
        calc (pyTrim (pySlice text.toList p.1 p.2)).length
            ≤ (pySlice text.toList p.1 p.2).length := pyTrim_length_le _
          _ ≤ (p.2 - p.1).toNat := pySlice_length_le _ _ _ (by omega) (by omega)
          _ ≤ 1000 := by omega
    · intro p hp
      obtain ⟨b0, b1, b2⟩ := hbnd p hp
      exact ⟨b0, b1, by exact_mod_cast b2⟩
    · intro i h0 hi
      exact hcov i h0 (by omega)

/-- Witness for `chunk_text_postconditions`: on the short input
`"hello"` the chunker returns the text unchanged. -/
theorem chunk_text_postconditions_witness :
    "hello".length ≤ 1000 ∧ chunk_text "hello" 1000 200 = ["hello"] :=
  ⟨by decide, (chunk_text_postconditions "hello").1 (by decide)⟩

/-- Counterexample to claim C8 as stated: with the configuration
`chunk_size = 1`, `overlap = 1`, on the two-character text `"ab"` the
window start is recomputed as `end - overlap = 1 - 1 = 0` on every
iteration, so the `while start < len(text)` loop never exits: no amount
of fuel suffices. -/
theorem chunk_text_loop_divergence_cex : ¬ chunkLoopTerminates ('a' :: 'b' :: []) 1 1 := by
  rintro ⟨fuel, res, h⟩
  have key : ∀ (f : ℕ) (acc : List (List Char)),
      chunkAux ('a' :: 'b' :: []) 1 1 f 0 acc = ChunkRes.out := by
    intro f
    induction f with
    | zero => intro acc; rfl
    | succ f ih =>
      intro acc
      have hstep : chunkStep ('a' :: 'b' :: []) 1 0 = Except.ok 1 := rfl
      rw [chunkAux, if_pos (by norm_num), hstep]
      exact ih _
  rw [key fuel []] at h
  cases h

/-- Claim C8 amended: the chunking loop terminates whenever the overlap
plus the maximal sentence-boundary look-back (`max 1 (min 100 (size/4))`)
does not exceed the chunk size — in particular for the service defaults
`size = 1000`, `overlap = 200` — because each iteration then advances the
window start by at least one character until it reaches the text length. -/
theorem chunkAux_terminates_of_goodParams (cs : List Char) (size overlap : ℕ)
    (h : goodParams size overlap) : chunkLoopTerminates cs size overlap := by
  obtain ⟨sp, heq, _, _⟩ :=
    chunkAux_ok cs size overlap h (cs.length + 1) 0 [] le_rfl (by omega) (by omega)
  exact ⟨cs.length + 1, _, heq⟩

/-- Witness for `chunkAux_terminates_of_goodParams` at the default
parameters on a concrete text. -/
theorem chunkAux_terminates_witness :
    goodParams 1000 200 ∧ chunkLoopTerminates ('h' :: 'i' :: []) 1000 200 :=
  ⟨by unfold goodParams; decide,
   chunkAux_terminates_of_goodParams ('h' :: 'i' :: []) 1000 200
     (by unfold goodParams; decide)⟩

/-- Sum of products `sum(a * b for a, b in zip(vec1, vec2))` from
`EmbeddingService.cosine_similarity` (Python `zip` truncates to the
shorter list). -/
def dotList (v1 v2 : List ℝ) : ℝ := (List.zipWith (fun a b => a * b) v1 v2).sum

/-- Sum of squares `sum(a * a for a in vec)` underlying the magnitudes in
`EmbeddingService.cosine_similarity`. -/
def sumSq (v : List ℝ) : ℝ := (v.map (fun a => a * a)).sum

/-- Vector magnitude `math.sqrt(sum(a * a for a in vec))`. -/
noncomputable def magnitude (v : List ℝ) : ℝ := Real.sqrt (sumSq v)

/-- `EmbeddingService.cosine_similarity(vec1, vec2)`: the dot product over
the product of magnitudes, `0` when either magnitude is `0`.  Python
floats are modelled as real numbers. -/
noncomputable def cosine_similarity (vec1 vec2 : List ℝ) : ℝ :=
  if magnitude vec1 = 0 ∨ magnitude vec2 = 0 then 0
  else dotList vec1 vec2 / (magnitude vec1 * magnitude vec2)

lemma sumSq_nonneg (v : List ℝ) : 0 ≤ sumSq v := by
  apply List.sum_nonneg
  intro x hx
  obtain ⟨a, _, rfl⟩ := List.mem_map.mp hx
  exact mul_self_nonneg a

/-- Cauchy-Schwarz for the list dot product, squared form, proved by
induction on the first list. -/
lemma dotList_sq_le (v1 : List ℝ) : ∀ v2 : List ℝ, (dotList v1 v2) ^ 2 ≤ sumSq v1 * sumSq v2 := by
  induction v1 with
  | nil =>
    intro v2
    simp [dotList, sumSq]
  | cons a v1 ih =>
    intro v2
    cases v2 with
    | nil =>
      simp [dotList, sumSq]
    | cons b v2 =>
      have h1 := sumSq_nonneg v1
      have h2 := sumSq_nonneg v2
      have hd := ih v2
      have e1 : dotList (a :: v1) (b :: v2) = a * b + dotList v1 v2 := by
        simp [dotList]
      have e2 : sumSq (a :: v1) = a * a + sumSq v1 := by simp [sumSq]
      have e3 : sumSq (b :: v2) = b * b + sumSq v2 := by simp [sumSq]
      rw [e1, e2, e3]
      by_cases hs2 : sumSq v2 = 0
      · have hd0 : dotList v1 v2 = 0 := by nlinarith [sq_nonneg (dotList v1 v2)]
        rw [hs2, hd0]
        nlinarith [mul_nonneg h1 (mul_self_nonneg b)]
      · have hs2' : 0 < sumSq v2 := lt_of_le_of_ne h2 (Ne.symm hs2)
        nlinarith [sq_nonneg (a * sumSq v2 - b * dotList v1 v2),
          mul_nonneg (add_nonneg (mul_self_nonneg b) h2) (sub_nonneg.mpr hd), hs2']

/-- Claim C9: `cosine_similarity` returns exactly `0` when either vector
has zero magnitude; for non-zero vectors of equal length it returns
`dot / (|a| * |b|)`, which lies in `[-1, 1]`; and the similarity of a
non-zero vector with itself is exactly `1` (Python floats modelled as
reals, so the floating tolerance is not needed). -/
theorem cosine_similarity_spec :
    (∀ v1 v2 : List ℝ, magnitude v1 = 0 ∨ magnitude v2 = 0 → cosine_similarity v1 v2 = 0) ∧
    (∀ v1 v2 : List ℝ, v1.length = v2.length → magnitude v1 ≠ 0 → magnitude v2 ≠ 0 →
      cosine_similarity v1 v2 = dotList v1 v2 / (magnitude v1 * magnitude v2) ∧
      -1 ≤ cosine_similarity v1 v2 ∧ cosine_similarity v1 v2 ≤ 1) ∧
    (∀ v : List ℝ, magnitude v ≠ 0 → cosine_similarity v v = 1) := by
  have hmag_pos : ∀ v : List ℝ, magnitude v ≠ 0 → 0 < magnitude v := by
    intro v hv
    exact lt_of_le_of_ne (Real.sqrt_nonneg _) (Ne.symm hv)
  have habs : ∀ v1 v2 : List ℝ, magnitude v1 ≠ 0 → magnitude v2 ≠ 0 →
      (dotList v1 v2) ^ 2 ≤ (magnitude v1 * magnitude v2) ^ 2 := by
    intro v1 v2 h1 h2
    have : (magnitude v1 * magnitude v2) ^ 2 = sumSq v1 * sumSq v2 := by
      rw [mul_pow]
      unfold magnitude
      rw [Real.sq_sqrt (sumSq_nonneg v1), Real.sq_sqrt (sumSq_nonneg v2)]
    rw [this]
    exact dotList_sq_le v1 v2
  refine ⟨?_, ?_, ?_⟩
  · intro v1 v2 h
    unfold cosine_similarity
    rw [if_pos h]
  · intro v1 v2 _ h1 h2
    have hm : 0 < magnitude v1 * magnitude v2 := mul_pos (hmag_pos v1 h1) (hmag_pos v2 h2)
    have heq : cosine_similarity v1 v2 = dotList v1 v2 / (magnitude v1 * magnitude v2) := by
      unfold cosine_similarity
      rw [if_neg (by push_neg; exact ⟨h1, h2⟩)]
    refine ⟨heq, ?_, ?_⟩
    · rw [heq, le_div_iff₀ hm]
      nlinarith [habs v1 v2 h1 h2, sq_nonneg (dotList v1 v2 + magnitude v1 * magnitude v2)]
    · rw [heq, div_le_one hm]
      nlinarith [habs v1 v2 h1 h2, sq_nonneg (dotList v1 v2 - magnitude v1 * magnitude v2)]
  · intro v hv
    have hs : dotList v v = sumSq v := by
      unfold dotList sumSq
      rw [List.zipWith_same]
    have hpos : 0 < sumSq v := by
      rcases lt_or_eq_of_le (sumSq_nonneg v) with h | h
      · exact h
      · exact absurd (by unfold magnitude; rw [← h, Real.sqrt_zero]) hv
    unfold cosine_similarity
    rw [if_neg (by push_neg; exact ⟨hv, hv⟩)]
    rw [hs]
    unfold magnitude
    rw [Real.mul_self_sqrt (sumSq_nonneg v)]
    exact div_self (ne_of_gt hpos)

/-- Witness for `cosine_similarity_spec` on concrete vectors: similarity
with a zero vector is `0`, and self-similarity of `[1]` is `1`. -/
theorem cosine_similarity_spec_witness :
    cosine_similarity ((0:ℝ) :: []) ((1:ℝ) :: []) = 0 ∧
    cosine_similarity ((1:ℝ) :: []) ((1:ℝ) :: []) = 1 := by
  constructor
  · apply cosine_similarity_spec.1
    left
    unfold magnitude sumSq
    simp
  · apply cosine_similarity_spec.2.2
    unfold magnitude sumSq
    simp

/-- One chunk record of the on-disk embedding JSON document
(`chunk_index`, `text`, `embedding`; `char_count` and `sentences_count`
are derivable metadata and carry no behaviour). -/
structure FileChunk where
  chunk_index : ℕ
  text : String
  embedding : List ℝ

/-- The per-item embedding artifact written by
`save_embeddings_to_file`: the `content_hash` metadata entry together
with the ordered chunk list (the remaining metadata fields are
informational only). -/
structure EmbeddingFileData where
  content_hash : String
  chunks : List FileChunk

/-- One chunk of the legacy database-stored embedding representation
(`item.embeddings['data']` entries with keys `chunk_id`, `text`,
`vector`). -/
structure LegacyChunk where
  chunk_id : ℕ
  text : String
  vector : List ℝ

/-- A `KnowledgeBase` row as seen by the embedding service: `content` is
the manual text (empty when absent), `file_path` the uploaded source file
(none when absent), `embedding_file_path` is empty until embeddings are
generated, `file` is the on-disk artifact at that path (`none` when the
file is missing or unparseable), and `legacy` models
`item.embeddings` when it is a `{'object': 'list', 'data': [...]}`
dictionary (`none` otherwise). -/
structure KnowledgeItem where
  id : ℕ
  user_id : ℕ
  title : String
  content : String
  file_path : Option String
  status : String
  embedding_file_path : String
  chunks_count : ℕ
  file : Option EmbeddingFileData
  legacy : Option (List LegacyChunk)

/-- `EmbeddingService.load_embeddings_from_file`: `None` when no path is
recorded or the file is missing/corrupt; a content-hash mismatch is only
logged, the data is returned regardless. -/
def load_embeddings_from_file (item : KnowledgeItem) : Option EmbeddingFileData :=
  if item.embedding_file_path = "" then none else item.file

/-- One retrieval result of `find_relevant_knowledge` (the `item` key is
represented by the `source` citation label built from it). -/
structure RetrievedChunk where
  chunk_id : ℕ
  similarity : ℝ
  content : String
  source : String

/-- `EmbeddingService.find_relevant_knowledge(assistant, query,
similarity_threshold=0.4)`: if embedding the query failed, return `[]`;
otherwise score every chunk of every `completed` item (file-based format
first, legacy database format as fallback), keep those with similarity
at least the threshold, sort descending by similarity (Python stable
sort) and return the top 5.  The opportunistic
`refresh_outdated_embeddings` call on an empty result set does not
affect the returned value and is omitted from this pure model. -/
noncomputable def find_relevant_knowledge (queryEmbedding : Option (List ℝ))
    (items : List KnowledgeItem) (similarity_threshold : ℝ) : List RetrievedChunk :=
  match queryEmbedding with
  | none => []
  | some qv =>
    let relevant_chunks :=
      (items.filter (fun it => it.status == "completed")).flatMap (fun item =>
        match load_embeddings_from_file item with
        | some data =>
          data.chunks.filterMap (fun ch =>
            if similarity_threshold ≤ cosine_similarity qv ch.embedding then
              some { chunk_id := ch.chunk_index,
                     similarity := cosine_similarity qv ch.embedding,
                     content := ch.text,
                     source := item.title ++ " (chunk " ++ toString (ch.chunk_index + 1) ++ ")" }
            else none)
        | none =>
          match item.legacy with
          | some legacyChunks =>
            legacyChunks.filterMap (fun ch =>
              if similarity_threshold ≤ cosine_similarity qv ch.vector then
                some { chunk_id := ch.chunk_id,
                       similarity := cosine_similarity qv ch.vector,
                       content := ch.text,
                       source := item.title ++ " (chunk " ++ toString (ch.chunk_id + 1) ++ ")" }
              else none)
          | none => [])
    (relevant_chunks.mergeSort (fun a b => decide (b.similarity ≤ a.similarity))).take 5

/-- Claim C1: the retriever returns `[]` when query embedding fails; and
for any query vector, item set and threshold, every returned result has
similarity at least the threshold, the results are sorted in descending
order of similarity, and at most 5 results are returned. -/
theorem find_relevant_knowledge_spec :
    (∀ (items : List KnowledgeItem) (t : ℝ), find_relevant_knowledge none items t = []) ∧
    (∀ (qv : List ℝ) (items : List KnowledgeItem) (t : ℝ),
      (find_relevant_knowledge (some qv) items t).length ≤ 5 ∧
      List.Forall (fun r => t ≤ r.similarity) (find_relevant_knowledge (some qv) items t) ∧
      List.Pairwise (fun r s : RetrievedChunk => s.similarity ≤ r.similarity)
        (find_relevant_knowledge (some qv) items t)) := by
  constructor
  · intro items t
    rfl
  · intro qv items t
    refine ⟨List.length_take_le _ _, ?_, ?_⟩
    · rw [List.forall_iff_forall_mem]
      intro r hr
      have hr1 := List.mem_of_mem_take hr
      rw [List.mem_mergeSort] at hr1
      obtain ⟨item, _, hmem⟩ := List.mem_flatMap.mp hr1
      rcases hload : load_embeddings_from_file item with _ | data
      · rw [hload] at hmem
        rcases hleg : item.legacy with _ | legacyChunks
        · rw [hleg] at hmem
          simp at hmem
        · rw [hleg] at hmem
          obtain ⟨ch, _, hch⟩ := List.mem_filterMap.mp hmem
          by_cases hc : t ≤ cosine_similarity qv ch.vector
          · rw [if_pos hc] at hch
            injection hch with hch
            rw [← hch]
            exact hc
          · rw [if_neg hc] at hch
            cases hch
      · rw [hload] at hmem
        obtain ⟨ch, _, hch⟩ := List.mem_filterMap.mp hmem
        by_cases hc : t ≤ cosine_similarity qv ch.embedding
        · rw [if_pos hc] at hch
          injection hch with hch
          rw [← hch]
          exact hc
        · rw [if_neg hc] at hch
          cases hch
    · apply List.Pairwise.sublist (List.take_sublist _ _)
      have hs := @List.sorted_mergeSort RetrievedChunk
        (fun a b : RetrievedChunk => decide (b.similarity ≤ a.similarity))
        (by intro a b c hab hbc
            rw [decide_eq_true_eq] at hab hbc ⊢
            exact le_trans hbc hab)
        (by intro a b
            rcases le_total a.similarity b.similarity with h | h
            · simp [h]
            · simp [h])
        ((items.filter (fun it => it.status == "completed")).flatMap (fun item =>
          match load_embeddings_from_file item with
          | some data =>
            data.chunks.filterMap (fun ch =>
              if t ≤ cosine_similarity qv ch.embedding then
                some { chunk_id := ch.chunk_index,
                       similarity := cosine_similarity qv ch.embedding,
                       content := ch.text,
                       source := item.title ++ " (chunk " ++ toString (ch.chunk_index + 1) ++ ")" }
              else none)
          | none =>
            match item.legacy with
            | some legacyChunks =>
              legacyChunks.filterMap (fun ch =>
                if t ≤ cosine_similarity qv ch.vector then
                  some { chunk_id := ch.chunk_id,
                         similarity := cosine_similarity qv ch.vector,
                         content := ch.text,
                         source := item.title ++ " (chunk " ++ toString (ch.chunk_id + 1) ++ ")" }
                else none)
            | none => []))
      exact hs.imp (fun h => of_decide_eq_true h)

/-- Python `str.strip()` on strings. -/
def pyStrip (s : String) : String := String.mk (pyTrim s.toList)

/-- Python `str.lower()` (per-character lowering; the ASCII range is all
the behaviour the matcher relies on). -/
def pyLower (s : String) : String := String.mk (s.toList.map Char.toLower)

/-- Accumulator loop behind `pySplit`: collect maximal runs of
non-whitespace characters. -/
def pySplitAux : List Char → List Char → List (List Char)
  | [], cur => if cur.isEmpty then [] else [cur.reverse]
  | c :: rest, cur =>
    if isPySpace c then
      if cur.isEmpty then pySplitAux rest [] else cur.reverse :: pySplitAux rest []
    else pySplitAux rest (c :: cur)

/-- Python `str.split()` with no arguments: split on whitespace runs,
discarding empty tokens. -/
def pySplit (s : String) : List String :=
  (pySplitAux s.toList []).map (fun l => String.mk l)

/-- One Q&A entry of an assistant (`qna.question`, `qna.answer`). -/
structure QnA where
  question : String
  answer : String
deriving DecidableEq

/-- The fixed stop-word set of `ChatService.check_qna_match`. -/
def stop_words : List String :=
  ["what", "how", "when", "where", "why", "who", "the", "and", "or", "but",
   "you", "your", "are", "is", "do", "does", "can", "will", "would", "should",
   "about", "with", "for", "from", "to", "in", "on", "at", "by"]

/-- Meaningful-word extraction of the fuzzy pass: the set of
whitespace-separated words longer than 3 characters that are not stop
words (Python builds a `set`, modelled as a `Finset`). -/
def meaningful_words (s : String) : Finset String :=
  ((pySplit s).filter (fun w => decide (3 < w.length) && !(stop_words.contains w))).toFinset

/-- Jaccard similarity `intersection / union if union > 0 else 0` of the
fuzzy pass.  Python divides small integers as floats; over these
magnitudes the float comparisons agree with exact rational arithmetic,
so the score is modelled in `ℚ`. -/
def jaccardSim (mw qw : Finset String) : ℚ :=
  if 0 < (mw ∪ qw).card then ((mw ∩ qw).card : ℚ) / ((mw ∪ qw).card : ℚ) else 0

/-- The meaningful-word set of the inbound message
(`message.lower().strip()`, then tokenisation). -/
def messageWords (message : String) : Finset String :=
  meaningful_words (pyStrip (pyLower message))

/-- Similarity of the message word set against one Q&A entry
(whose question is lowered but not stripped, as in the source). -/
def fuzzySim (mw : Finset String) (q : QnA) : ℚ :=
  jaccardSim mw (meaningful_words (pyLower q.question))

/-- First pass of `ChatService.check_qna_match`: case-insensitive,
whitespace-trimmed equality; the first matching entry wins. -/
def exactPass (message_lower : String) : List QnA → Option String
  | [] => none
  | q :: rest =>
    if message_lower = pyStrip (pyLower q.question) then some q.answer
    else exactPass message_lower rest

/-- Second (fuzzy) pass of `ChatService.check_qna_match`: the loop over
the Q&A list carrying `best_match`/`best_score`, updating them only when
`similarity >= 0.7 and intersection >= 2 and similarity > best_score`;
entries with an empty message or question word set are skipped. -/
def fuzzyAux (mw : Finset String) : List QnA → Option String → ℚ → Option String
  | [], best, _ => best
  | q :: rest, best, best_score =>
    let qw := meaningful_words (pyLower q.question)
    if mw = ∅ ∨ qw = ∅ then fuzzyAux mw rest best best_score
    else
      if 7/10 ≤ jaccardSim mw qw ∧ 2 ≤ (mw ∩ qw).card ∧ best_score < jaccardSim mw qw then
        fuzzyAux mw rest (some q.answer) (jaccardSim mw qw)
      else fuzzyAux mw rest best best_score

/-- The fuzzy pass run as in the source: initial best is `None` with
score `0`. -/
def fuzzy_match (message : String) (qnas : List QnA) : Option String :=
  fuzzyAux (messageWords message) qnas none 0

/-- `ChatService.check_qna_match(message)`: exact pass first, fuzzy pass
on a miss. -/
def check_qna_match (qnas : List QnA) (message : String) : Option String :=
  match exactPass (pyStrip (pyLower message)) qnas with
  | some a => some a
  | none => fuzzy_match message qnas

/-- Qualification predicate of the fuzzy pass: a candidate can be
selected only when both word sets are non-empty, the Jaccard similarity
reaches `0.7` and the intersection has at least 2 words. -/
def fuzzyQualifies (mw : Finset String) (q : QnA) : Prop :=
  mw ≠ ∅ ∧ meaningful_words (pyLower q.question) ≠ ∅ ∧
    7/10 ≤ fuzzySim mw q ∧ 2 ≤ (mw ∩ meaningful_words (pyLower q.question)).card

/-- Fold characterisation of the fuzzy pass: the loop either leaves the
running best untouched (and then no candidate qualifies above the
running score), or returns the answer of a qualifying candidate whose
similarity strictly beats the running score and is maximal among the
qualifying candidates. -/
lemma fuzzyAux_cases (mw : Finset String) :
    ∀ (l : List QnA) (best : Option String) (bs : ℚ),
      (fuzzyAux mw l best bs = best ∧ ∀ q ∈ l, fuzzyQualifies mw q → fuzzySim mw q ≤ bs) ∨
      (∃ q ∈ l, fuzzyAux mw l best bs = some q.answer ∧ fuzzyQualifies mw q ∧
        bs < fuzzySim mw q ∧ ∀ q' ∈ l, fuzzyQualifies mw q' → fuzzySim mw q' ≤ fuzzySim mw q) := by
  intro l
  induction l with
  | nil =>
    intro best bs
    left
    exact ⟨rfl, by intro q hq; cases hq⟩
  | cons q rest ih =>
    intro best bs
    by_cases hemp : mw = ∅ ∨ meaningful_words (pyLower q.question) = ∅
    · have hstep : fuzzyAux mw (q :: rest) best bs = fuzzyAux mw rest best bs := by
        rw [fuzzyAux, if_pos hemp]
      have hnq : ¬ fuzzyQualifies mw q := by
        intro hq
        rcases hemp with h | h
        · exact hq.1 h
        · exact hq.2.1 h
      rcases ih best bs with ⟨heq, hall⟩ | ⟨q', hq', heq, hqual, hlt, hmax⟩
      · left
        refine ⟨hstep.trans heq, ?_⟩
        intro p hp hpq
        rcases List.mem_cons.mp hp with rfl | hp
        · exact absurd hpq hnq
        · exact hall p hp hpq
      · right
        refine ⟨q', List.mem_cons_of_mem _ hq', hstep.trans heq, hqual, hlt, ?_⟩
        intro p hp hpq
        rcases List.mem_cons.mp hp with rfl | hp
        · exact absurd hpq hnq
        · exact hmax p hp hpq
    · by_cases hcond : 7/10 ≤ jaccardSim mw (meaningful_words (pyLower q.question)) ∧
          2 ≤ (mw ∩ meaningful_words (pyLower q.question)).card ∧
          bs < jaccardSim mw (meaningful_words (pyLower q.question))
      · have hstep : fuzzyAux mw (q :: rest) best bs =
            fuzzyAux mw rest (some q.answer) (jaccardSim mw (meaningful_words (pyLower q.question))) := by
          rw [fuzzyAux, if_neg hemp, if_pos hcond]
        push_neg at hemp
        have hq : fuzzyQualifies mw q := ⟨hemp.1, hemp.2, hcond.1, hcond.2.1⟩
        rcases ih (some q.answer) (jaccardSim mw (meaningful_words (pyLower q.question))) with
          ⟨heq, hall⟩ | ⟨q', hq', heq, hqual, hlt, hmax⟩
        · right
          refine ⟨q, List.mem_cons_self _ _, hstep.trans heq, hq, hcond.2.2, ?_⟩
          intro p hp hpq
          rcases List.mem_cons.mp hp with rfl | hp
          · exact le_refl _
          · exact hall p hp hpq
        · right
          refine ⟨q', List.mem_cons_of_mem _ hq', hstep.trans heq, hqual, ?_, ?_⟩
          · exact lt_trans hcond.2.2 hlt
          · intro p hp hpq
            rcases List.mem_cons.mp hp with rfl | hp
            · exact le_of_lt hlt
            · exact hmax p hp hpq
      · have hstep : fuzzyAux mw (q :: rest) best bs = fuzzyAux mw rest best bs := by
          rw [fuzzyAux, if_neg hemp, if_neg hcond]
        push_neg at hemp
        rcases ih best bs with ⟨heq, hall⟩ | ⟨q', hq', heq, hqual, hlt, hmax⟩
        · left
          refine ⟨hstep.trans heq, ?_⟩
          intro p hp hpq
          rcases List.mem_cons.mp hp with rfl | hp
          · by_contra hgt
            push_neg at hgt
            exact hcond ⟨hpq.2.2.1, hpq.2.2.2, hgt⟩
          · exact hall p hp hpq
        · right
          refine ⟨q', List.mem_cons_of_mem _ hq', hstep.trans heq, hqual, hlt, ?_⟩
          intro p hp hpq
          rcases List.mem_cons.mp hp with rfl | hp
          · have hle : fuzzySim mw p ≤ bs := by
              by_contra hgt
              push_neg at hgt
              exact hcond ⟨hpq.2.2.1, hpq.2.2.2, hgt⟩
            exact le_of_lt (lt_of_le_of_lt hle hlt)
          · exact hmax p hp hpq

/-- Claim C3: the fuzzy pass returns an answer only for a candidate with
Jaccard similarity at least `0.7` over the meaningful-word sets AND a
token intersection of at least 2 words, keeping a qualifying candidate of
maximal similarity; it returns `None` when no candidate qualifies.  In
particular an intersection of exactly one word never matches, whatever
the Jaccard ratio, since qualification requires an intersection of at
least 2. -/
theorem check_qna_match_fuzzy_spec (message : String) (qnas : List QnA) :
    (∀ a, fuzzy_match message qnas = some a →
      ∃ q ∈ qnas, q.answer = a ∧ fuzzyQualifies (messageWords message) q ∧
        2 ≤ ((messageWords message) ∩ meaningful_words (pyLower q.question)).card ∧
        ∀ q' ∈ qnas, fuzzyQualifies (messageWords message) q' →
          fuzzySim (messageWords message) q' ≤ fuzzySim (messageWords message) q) ∧
    ((∀ q ∈ qnas, ¬ fuzzyQualifies (messageWords message) q) →
      fuzzy_match message qnas = none) := by
  constructor
  · intro a ha
    rcases fuzzyAux_cases (messageWords message) qnas none 0 with ⟨heq, _⟩ |
      ⟨q, hq, heq, hqual, _, hmax⟩
    · rw [show fuzzy_match message qnas = fuzzyAux (messageWords message) qnas none 0 from rfl,
        heq] at ha
      cases ha
    · rw [show fuzzy_match message qnas = fuzzyAux (messageWords message) qnas none 0 from rfl,
        heq] at ha
      injection ha with ha
      exact ⟨q, hq, ha, hqual, hqual.2.2.2, hmax⟩
  · intro h
    rcases fuzzyAux_cases (messageWords message) qnas none 0 with ⟨heq, _⟩ |
      ⟨q, hq, _, hqual, _, _⟩
    · exact heq
    · exact absurd hqual (h q hq)

lemma jaccard_delivery_self :
    jaccardSim (messageWords "delivery timeframe")
      (meaningful_words (pyLower "delivery timeframe")) = 1 := by
  have hi : (messageWords "delivery timeframe" ∩
      meaningful_words (pyLower "delivery timeframe")).card = 2 := by decide
  have hu : (messageWords "delivery timeframe" ∪
      meaningful_words (pyLower "delivery timeframe")).card = 2 := by decide
  rw [jaccardSim, hi, hu]
  norm_num

lemma jaccard_delivery_swapped :
    jaccardSim (messageWords "delivery timeframe")
      (meaningful_words (pyLower "timeframe delivery")) = 1 := by
  have hi : (messageWords "delivery timeframe" ∩
      meaningful_words (pyLower "timeframe delivery")).card = 2 := by decide
  have hu : (messageWords "delivery timeframe" ∪
      meaningful_words (pyLower "timeframe delivery")).card = 2 := by decide
  rw [jaccardSim, hi, hu]
  norm_num

lemma fuzzy_match_delivery_eval :
    fuzzy_match "delivery timeframe" [QnA.mk "delivery timeframe" "3 days"] = some "3 days" := by
  have h1 : messageWords "delivery timeframe" ≠ ∅ := by decide
  have h2 : meaningful_words (pyLower (QnA.mk "delivery timeframe" "3 days").question) ≠ ∅ := by
    show meaningful_words (pyLower "delivery timeframe") ≠ ∅
    decide
  have h3 : (messageWords "delivery timeframe" ∩
      meaningful_words (pyLower (QnA.mk "delivery timeframe" "3 days").question)).card = 2 := by
    show (messageWords "delivery timeframe" ∩
      meaningful_words (pyLower "delivery timeframe")).card = 2
    decide
  have h4 : jaccardSim (messageWords "delivery timeframe")
      (meaningful_words (pyLower (QnA.mk "delivery timeframe" "3 days").question)) = 1 := by
    show jaccardSim (messageWords "delivery timeframe")
      (meaningful_words (pyLower "delivery timeframe")) = 1
    exact jaccard_delivery_self
  have hneg : ¬(messageWords "delivery timeframe" = ∅ ∨
      meaningful_words (pyLower (QnA.mk "delivery timeframe" "3 days").question) = ∅) := by
    rintro (h | h)
    · exact h1 h
    · exact h2 h
  have hcond : 7/10 ≤ jaccardSim (messageWords "delivery timeframe")
        (meaningful_words (pyLower (QnA.mk "delivery timeframe" "3 days").question)) ∧
      2 ≤ (messageWords "delivery timeframe" ∩
        meaningful_words (pyLower (QnA.mk "delivery timeframe" "3 days").question)).card ∧
      (0:ℚ) < jaccardSim (messageWords "delivery timeframe")
        (meaningful_words (pyLower (QnA.mk "delivery timeframe" "3 days").question)) := by
    refine ⟨?_, ?_, ?_⟩
    · rw [h4]
      norm_num
    · rw [h3]
    · rw [h4]
      norm_num
  show fuzzyAux (messageWords "delivery timeframe")
    [QnA.mk "delivery timeframe" "3 days"] none 0 = some "3 days"
  rw [fuzzyAux, if_neg hneg, if_pos hcond]
  rfl

/-- Witness for `check_qna_match_fuzzy_spec`: the message
`"delivery timeframe"` fuzzy-matches the identical stored question, and
the returned candidate satisfies all the qualification bounds. -/
theorem check_qna_match_fuzzy_witness :
    ∃ q ∈ [QnA.mk "delivery timeframe" "3 days"], q.answer = "3 days" ∧
      fuzzyQualifies (messageWords "delivery timeframe") q ∧
      2 ≤ ((messageWords "delivery timeframe") ∩ meaningful_words (pyLower q.question)).card ∧
      ∀ q' ∈ [QnA.mk "delivery timeframe" "3 days"],
        fuzzyQualifies (messageWords "delivery timeframe") q' →
        fuzzySim (messageWords "delivery timeframe") q' ≤
          fuzzySim (messageWords "delivery timeframe") q :=
  (check_qna_match_fuzzy_spec "delivery timeframe" [QnA.mk "delivery timeframe" "3 days"]).1
    "3 days" fuzzy_match_delivery_eval

lemma fuzzyAux_const (mw : Finset String) :
    ∀ (l : List QnA) (best : Option String) (bs : ℚ),
      (∀ p ∈ l, fuzzySim mw p ≤ bs) → fuzzyAux mw l best bs = best := by
  intro l
  induction l with
  | nil => intro best bs _; rfl
  | cons q rest ih =>
    intro best bs h
    by_cases hemp : mw = ∅ ∨ meaningful_words (pyLower q.question) = ∅
    · rw [fuzzyAux, if_pos hemp]
      exact ih best bs (fun p hp => h p (List.mem_cons_of_mem _ hp))
    · rw [fuzzyAux, if_neg hemp, if_neg ?_]
      · exact ih best bs (fun p hp => h p (List.mem_cons_of_mem _ hp))
      · rintro ⟨_, _, hlt⟩
        exact absurd (h q (List.mem_cons_self _ _)) (not_le.mpr hlt)

lemma fuzzyAux_first_max (mw : Finset String) (q : QnA) (l2 : List QnA)
    (hq2 : ∀ p ∈ l2, fuzzySim mw p ≤ fuzzySim mw q) :
    ∀ (l1 : List QnA) (best : Option String) (bs : ℚ),
      fuzzyQualifies mw q → bs < fuzzySim mw q →
      (∀ p ∈ l1, fuzzyQualifies mw p → fuzzySim mw p < fuzzySim mw q) →
      fuzzyAux mw (l1 ++ q :: l2) best bs = some q.answer := by
  intro l1
  induction l1 with
  | nil =>
    intro best bs hq hbs _
    rw [List.nil_append, fuzzyAux, if_neg ?_, if_pos ⟨hq.2.2.1, hq.2.2.2, hbs⟩]
    · exact fuzzyAux_const mw l2 (some q.answer) (fuzzySim mw q) hq2
    · rintro (h | h)
      · exact hq.1 h
      · exact hq.2.1 h
  | cons p l1 ih =>
    intro best bs hq hbs h1
    rw [List.cons_append]
    by_cases hemp : mw = ∅ ∨ meaningful_words (pyLower p.question) = ∅
    · rw [fuzzyAux, if_pos hemp]
      exact ih best bs hq hbs (fun r hr => h1 r (List.mem_cons_of_mem _ hr))
    · by_cases hcond : 7/10 ≤ jaccardSim mw (meaningful_words (pyLower p.question)) ∧
          2 ≤ (mw ∩ meaningful_words (pyLower p.question)).card ∧
          bs < jaccardSim mw (meaningful_words (pyLower p.question))
      · rw [fuzzyAux, if_neg hemp, if_pos hcond]
        push_neg at hemp
        have hpq : fuzzyQualifies mw p := ⟨hemp.1, hemp.2, hcond.1, hcond.2.1⟩
        exact ih (some p.answer) (fuzzySim mw p) hq
          (h1 p (List.mem_cons_self _ _) hpq)
          (fun r hr => h1 r (List.mem_cons_of_mem _ hr))
      · rw [fuzzyAux, if_neg hemp, if_neg hcond]
        exact ih best bs hq hbs (fun r hr => h1 r (List.mem_cons_of_mem _ hr))

/-- Claim C10: the fuzzy pass is deterministic in list order.  Because
the best-candidate comparison is strict (`similarity > best_score`), a
qualifying candidate whose similarity strictly beats every qualifying
candidate before it and is not exceeded by any candidate after it wins —
in particular a later entry tied with it never replaces it. -/
theorem fuzzy_match_first_of_ties_wins (message : String) (l1 l2 : List QnA) (q : QnA)
    (hq : fuzzyQualifies (messageWords message) q)
    (h1 : ∀ p ∈ l1, fuzzyQualifies (messageWords message) p →
      fuzzySim (messageWords message) p < fuzzySim (messageWords message) q)
    (h2 : ∀ p ∈ l2, fuzzySim (messageWords message) p ≤ fuzzySim (messageWords message) q) :
    fuzzy_match message (l1 ++ q :: l2) = some q.answer := by
  have h0 : (0:ℚ) < fuzzySim (messageWords message) q :=
    lt_of_lt_of_le (by norm_num) hq.2.2.1
  exact fuzzyAux_first_max (messageWords message) q l2 h2 l1 none 0 hq h0 h1

/-- Witness for `fuzzy_match_first_of_ties_wins`: two stored questions
with identical (tied) similarity 1 to the message; the earlier entry's
answer is returned. -/
theorem fuzzy_match_first_of_ties_wins_witness :
    fuzzy_match "delivery timeframe"
      ([] ++ QnA.mk "delivery timeframe" "answer A" ::
        [QnA.mk "timeframe delivery" "answer B"]) = some "answer A" := by
  apply fuzzy_match_first_of_ties_wins "delivery timeframe" []
    [QnA.mk "timeframe delivery" "answer B"] (QnA.mk "delivery timeframe" "answer A")
  · refine ⟨by decide, by decide, ?_, ?_⟩
    · show (7:ℚ)/10 ≤ jaccardSim (messageWords "delivery timeframe")
        (meaningful_words (pyLower "delivery timeframe"))
      rw [jaccard_delivery_self]
      norm_num
    · show 2 ≤ (messageWords "delivery timeframe" ∩
        meaningful_words (pyLower "delivery timeframe")).card
      decide
  · intro p hp
    cases hp
  · intro p hp
    rcases List.mem_singleton.mp hp with rfl
    show jaccardSim (messageWords "delivery timeframe")
        (meaningful_words (pyLower "timeframe delivery")) ≤
      jaccardSim (messageWords "delivery timeframe")
        (meaningful_words (pyLower "delivery timeframe"))
    rw [jaccard_delivery_self, jaccard_delivery_swapped]

/-- Result of a successful chat-completion call: the reply text and the
`usage.total_tokens` count. -/
structure CompletionResult where
  text : String
  total_tokens : ℕ

/-- The collaborators of one `ChatService.process_message` call: the
assistant's Q&A list and knowledge items, the outcome of embedding the
inbound message (for retrieval), and the outcome of the
chat-completion call (`Except.error` models a raised exception). -/
structure ChatEnv where
  qnas : List QnA
  items : List KnowledgeItem
  queryEmbedding : Option (List ℝ)
  completion : Except String CompletionResult

/-- Which user-turn prompt `generate_ai_response` builds: the
knowledge-base context prompt (retrieval hits present) or the plain
general-knowledge fallback prompt. -/
inductive PromptKind where
  | withContext : PromptKind
  | plain : PromptKind
deriving DecidableEq

/-- A persisted `ChatMessage` row (`message_type`, `content`,
`is_voice`). -/
structure ChatMessageRec where
  message_type : String
  content : String
  is_voice : Bool
deriving DecidableEq

/-- The fixed user-facing apology returned by
`ChatService.generate_ai_response` when the completion call raises. -/
def apology_text : String :=
  "I apologize, but I\x27m having trouble processing your request right now. Please try again later or contact our support team."

/-- Outcome of `ChatService.generate_ai_response`. -/
structure AiResponse where
  response : String
  prompt_kind : PromptKind
  completion_calls : ℕ

/-- `ChatService.generate_ai_response(message, relevant_knowledge,
session)`: builds the knowledge-base-context prompt when retrieval hits
exist and the plain fallback prompt otherwise (the prompt text itself is
abstracted to its kind), performs exactly one chat-completion call, and
converts any raised exception into the fixed apology string.  History
lookup and token-usage accounting have no effect on the returned
text and are omitted. -/
def generate_ai_response (completion : Except String CompletionResult)
    (relevant_knowledge : List RetrievedChunk) : AiResponse :=
  let kind := match relevant_knowledge with
    | [] => PromptKind.plain
    | _ :: _ => PromptKind.withContext
  match completion with
  | Except.ok r => { response := r.text, prompt_kind := kind, completion_calls := 1 }
  | Except.error _ => { response := apology_text, prompt_kind := kind, completion_calls := 1 }

/-- Outcome of `ChatService.process_message`: the reply, the
`response_source` debug tag, how many chat-completion and
query-embedding calls were made, the prompt kind of the completion call
(if one happened), and the `ChatMessage` rows persisted, in order. -/
structure ProcessResult where
  response : String
  response_source : String
  completion_calls : ℕ
  retrieval_calls : ℕ
  prompt_kind : Option PromptKind
  saved_messages : List ChatMessageRec

/-- `ChatService.process_message(message, ...)`: persist the user
message, then try the Q&A matcher; on a hit (Python truthiness: a `None`
or empty-string answer is a miss) return the stored answer with no
retrieval and no completion call; otherwise retrieve with threshold 0.4
and call the LLM with context when there are hits, with the plain prompt
when there are none; finally persist the assistant reply.  Session
resolution is elided from this pure model. -/
noncomputable def process_message (env : ChatEnv) (message : String) (is_voice : Bool) :
    ProcessResult :=
  let user_msg : ChatMessageRec :=
    { message_type := "user", content := message, is_voice := is_voice }
  let qna_response := check_qna_match env.qnas message
  if (qna_response.getD "") ≠ "" then
    { response := qna_response.getD "",
      response_source := "qna",
      completion_calls := 0,
      retrieval_calls := 0,
      prompt_kind := none,
      saved_messages := [user_msg,
        { message_type := "assistant", content := qna_response.getD "", is_voice := false }] }
  else
    let relevant_knowledge := find_relevant_knowledge env.queryEmbedding env.items (0.4 : ℝ)
    let ai := generate_ai_response env.completion relevant_knowledge
    { response := ai.response,
      response_source := match relevant_knowledge with | [] => "llm" | _ :: _ => "kb+llm",
      completion_calls := ai.completion_calls,
      retrieval_calls := 1,
      prompt_kind := some ai.prompt_kind,
      saved_messages := [user_msg,
        { message_type := "assistant", content := ai.response, is_voice := false }] }

/-- Counterexample to claim C2 as stated: `process_message` tests the
matcher result with Python truthiness (`if qna_response:`), so a stored
answer that is the empty string is treated as a miss — the matcher
returns the answer `""` yet a completion call is made and its reply is
returned instead of the stored answer. -/
theorem process_message_empty_answer_cex :
    check_qna_match [QnA.mk "What are your hours?" ""] "What are your hours?" = some "" ∧
    (process_message
      (ChatEnv.mk [QnA.mk "What are your hours?" ""] [] none
        (Except.ok (CompletionResult.mk "llm reply" 7)))
      "What are your hours?" false).completion_calls = 1 ∧
    (process_message
      (ChatEnv.mk [QnA.mk "What are your hours?" ""] [] none
        (Except.ok (CompletionResult.mk "llm reply" 7)))
      "What are your hours?" false).response = "llm reply" := by
  refine ⟨?_, ?_, ?_⟩ <;> rfl

/-- Claim C2 amended: the composer follows the priority order QnA-check,
then retrieval, then LLM.  When the matcher returns a non-empty answer it
is returned verbatim with zero completion and zero retrieval calls
(Python truthiness makes an empty stored answer fall through to the LLM
path, see the counterexample); on a miss exactly one retrieval and one
completion call happen, with the knowledge-base-context prompt when
retrieval returned hits and the plain prompt when it returned none; and
the concrete hours scenario returns exactly the stored answer with zero
completion calls. -/
theorem process_message_priority :
    (∀ (env : ChatEnv) (message : String) (is_voice : Bool) (ans : String),
      check_qna_match env.qnas message = some ans → ans ≠ "" →
      (process_message env message is_voice).response = ans ∧
      (process_message env message is_voice).completion_calls = 0 ∧
      (process_message env message is_voice).retrieval_calls = 0) ∧
    (∀ (env : ChatEnv) (message : String) (is_voice : Bool),
      (check_qna_match env.qnas message).getD "" = "" →
      (process_message env message is_voice).completion_calls = 1 ∧
      (process_message env message is_voice).retrieval_calls = 1 ∧
      (find_relevant_knowledge env.queryEmbedding env.items (0.4 : ℝ) ≠ [] →
        (process_message env message is_voice).prompt_kind = some PromptKind.withContext) ∧
      (find_relevant_knowledge env.queryEmbedding env.items (0.4 : ℝ) = [] →
        (process_message env message is_voice).prompt_kind = some PromptKind.plain)) ∧
    (∀ (items : List KnowledgeItem) (qe : Option (List ℝ))
        (comp : Except String CompletionResult) (is_voice : Bool),
      (process_message
        (ChatEnv.mk [QnA.mk "What are your hours?" "9-5 Mon-Fri"] items qe comp)
        "What are your hours?" is_voice).response = "9-5 Mon-Fri" ∧
      (process_message
        (ChatEnv.mk [QnA.mk "What are your hours?" "9-5 Mon-Fri"] items qe comp)
        "What are your hours?" is_voice).completion_calls = 0) := by
  have hhit : ∀ (env : ChatEnv) (message : String) (is_voice : Bool) (ans : String),
      check_qna_match env.qnas message = some ans → ans ≠ "" →
      (process_message env message is_voice).response = ans ∧
      (process_message env message is_voice).completion_calls = 0 ∧
      (process_message env message is_voice).retrieval_calls = 0 := by
    intro env message is_voice ans h hne
    simp only [process_message, h, Option.getD_some]
    rw [if_pos hne]
    exact ⟨rfl, rfl, rfl⟩
  refine ⟨hhit, ?_, ?_⟩
  · intro env message is_voice h
    have hgen : ∀ (c : Except String CompletionResult) (rk : List RetrievedChunk),
        (generate_ai_response c rk).completion_calls = 1 := by
      intro c rk
      unfold generate_ai_response
      rcases c with e | r <;> rfl
    have hctx : ∀ (c : Except String CompletionResult) (rk : List RetrievedChunk),
        rk ≠ [] → (generate_ai_response c rk).prompt_kind = PromptKind.withContext := by
      intro c rk hrk
      rcases rk with _ | ⟨a, tl⟩
      · exact absurd rfl hrk
      · unfold generate_ai_response
        rcases c with e | r <;> rfl
    have hplain : ∀ (c : Except String CompletionResult),
        (generate_ai_response c []).prompt_kind = PromptKind.plain := by
      intro c
      unfold generate_ai_response
      rcases c with e | r <;> rfl
    simp only [process_message, h]
    rw [if_neg (by intro hh; exact hh rfl)]
    dsimp only
    refine ⟨hgen _ _, rfl, ?_, ?_⟩
    · intro hrk
      rw [hctx _ _ hrk]
    · intro hrk
      rw [hrk, hplain]
  · intro items qe comp is_voice
    have h : check_qna_match [QnA.mk "What are your hours?" "9-5 Mon-Fri"]
        "What are your hours?" = some "9-5 Mon-Fri" := by decide
    exact ⟨(hhit _ _ is_voice _ h (by decide)).1, (hhit _ _ is_voice _ h (by decide)).2.1⟩

/-- Witness for `process_message_priority`: the hours scenario at a
concrete environment, via the QnA-hit conjunct. -/
theorem process_message_priority_witness :
    (process_message
      (ChatEnv.mk [QnA.mk "What are your hours?" "9-5 Mon-Fri"] [] none
        (Except.ok (CompletionResult.mk "unused" 0)))
      "What are your hours?" false).response = "9-5 Mon-Fri" ∧
    (process_message
      (ChatEnv.mk [QnA.mk "What are your hours?" "9-5 Mon-Fri"] [] none
        (Except.ok (CompletionResult.mk "unused" 0)))
      "What are your hours?" false).completion_calls = 0 ∧
    (process_message
      (ChatEnv.mk [QnA.mk "What are your hours?" "9-5 Mon-Fri"] [] none
        (Except.ok (CompletionResult.mk "unused" 0)))
      "What are your hours?" false).retrieval_calls = 0 :=
  process_message_priority.1
    (ChatEnv.mk [QnA.mk "What are your hours?" "9-5 Mon-Fri"] [] none
      (Except.ok (CompletionResult.mk "unused" 0)))
    "What are your hours?" false "9-5 Mon-Fri" (by decide) (by decide)

/-- Claim C4: any exception raised by the chat-completion call is
converted into the fixed apology string instead of propagating (the
model's `generate_ai_response` is a total function whose error branch
returns `apology_text`), and the user's inbound message is always the
first persisted `ChatMessage`, so it is on record before response
composition and survives a completion failure. -/
theorem process_message_failure_spec :
    (∀ (e : String) (rk : List RetrievedChunk),
      (generate_ai_response (Except.error e) rk).response = apology_text) ∧
    (∀ (env : ChatEnv) (message : String) (is_voice : Bool),
      ∃ rest, (process_message env message is_voice).saved_messages =
        ChatMessageRec.mk "user" message is_voice :: rest) ∧
    (∀ (env : ChatEnv) (message : String) (is_voice : Bool) (e : String),
      env.completion = Except.error e →
      (check_qna_match env.qnas message).getD "" = "" →
      (process_message env message is_voice).response = apology_text) := by
  refine ⟨?_, ?_, ?_⟩
  · intro e rk
    unfold generate_ai_response
    rcases rk with _ | ⟨a, tl⟩ <;> rfl
  · intro env message is_voice
    by_cases hc : ((check_qna_match env.qnas message).getD "") ≠ ""
    · simp only [process_message]
      rw [if_pos hc]
      exact ⟨_, rfl⟩
    · simp only [process_message]
      rw [if_neg hc]
      exact ⟨_, rfl⟩
  · intro env message is_voice e hcomp h
    simp only [process_message, h]
    rw [if_neg (by intro hh; exact hh rfl)]
    dsimp only
    rw [hcomp]
    unfold generate_ai_response
    rcases hrk : find_relevant_knowledge env.queryEmbedding env.items (0.4 : ℝ) with _ | ⟨a, tl⟩ <;>
      rfl

/-- Witness for `process_message_failure_spec`: a concrete environment
whose completion call raises; the composer returns the apology. -/
theorem process_message_failure_witness :
    (process_message (ChatEnv.mk [] [] none (Except.error "boom")) "hello" false).response =
      apology_text :=
  process_message_failure_spec.2.2 (ChatEnv.mk [] [] none (Except.error "boom"))
    "hello" false "boom" rfl rfl

/-- `EmbeddingService.extract_text_content`: the inline `content` field
when non-empty (Python truthiness).  Uploaded-file extraction delegates
to external parsing libraries and is outside this model, so knowledge
items carry inline content here. -/
def extract_text_content (item : KnowledgeItem) : String :=
  if item.content ≠ "" then item.content else ""

/-- `EmbeddingService.get_embedding_file_path`: the fixed
`{base}/users/{user_id}/knowledge_bases/{id}_embeddings.json` layout
(directory creation is a file-system side effect with no bearing on the
returned path). -/
def get_embedding_file_path (item : KnowledgeItem) : String :=
  "media/embeddings/users/" ++ toString item.user_id ++ "/knowledge_bases/" ++
    toString item.id ++ "_embeddings.json"

/-- `EmbeddingService._generate_content_hash`: a digest of the extracted
text.  The md5 hex digest is abstracted as a digest function `hash`;
witnesses instantiate it with an injective function, matching md5's
collision-free use here. -/
def generate_content_hash (hash : String → String) (item : KnowledgeItem) : String :=
  hash (extract_text_content item)

/-- `EmbeddingService.save_embeddings_to_file`: writes the JSON document
(content hash over the currently extracted text, plus the chunk list)
and updates `embedding_file_path`/`chunks_count`/`status` directly. -/
def save_embeddings_to_file (hash : String → String) (item : KnowledgeItem)
    (chunks : List FileChunk) : KnowledgeItem :=
  { item with
      file := some { content_hash := generate_content_hash hash item, chunks := chunks },
      embedding_file_path := get_embedding_file_path item,
      chunks_count := chunks.length,
      status := "completed" }

/-- `EmbeddingService.generate_embeddings_for_item`: set `processing`;
extract; empty (stripped) text degrades to `error`; set `embedding`,
chunk with the service defaults, embed each chunk through the external
API (`embed`, `none` = per-chunk failure, the chunk is dropped); zero
surviving chunks degrade to `error`, otherwise the file is saved and the
item completed. -/
def generate_embeddings_for_item (hash : String → String)
    (embed : String → Option (List ℝ)) (item : KnowledgeItem) : KnowledgeItem :=
  let item1 := { item with status := "processing" }
  if pyStrip (extract_text_content item1) = "" then { item1 with status := "error" }
  else
    let item2 := { item1 with status := "embedding" }
    let chunks := chunk_text (extract_text_content item1) 1000 200
    let chunk_embeddings := chunks.enum.filterMap (fun p =>
      (embed p.2).map (fun v => FileChunk.mk p.1 p.2 v))
    if chunk_embeddings.isEmpty then { item2 with status := "error" }
    else save_embeddings_to_file hash item2 chunk_embeddings

/-- `EmbeddingService.refresh_embeddings_for_item`: delete the old
embedding file, clear the embedding fields (including the legacy inline
representation), set `processing`, and regenerate. -/
def refresh_embeddings_for_item (hash : String → String)
    (embed : String → Option (List ℝ)) (item : KnowledgeItem) : KnowledgeItem :=
  generate_embeddings_for_item hash embed
    { item with
        file := none,
        legacy := none,
        embedding_file_path := "",
        chunks_count := 0,
        status := "processing" }

/-- The per-item test of `EmbeddingService.validate_embeddings_integrity`:
a `completed` item with a recorded file path whose stored content hash
disagrees with the recomputed hash of the current text. -/
def outdatedCheck (hash : String → String) (item : KnowledgeItem) : Bool :=
  if item.status == "completed" && !(item.embedding_file_path == "") then
    match load_embeddings_from_file item with
    | some data => !(data.content_hash == generate_content_hash hash item)
    | none => false
  else false

/-- `EmbeddingService.validate_embeddings_integrity(assistant)`: the
subset of knowledge items that are outdated. -/
def validate_embeddings_integrity (hash : String → String)
    (items : List KnowledgeItem) : List KnowledgeItem :=
  items.filter (outdatedCheck hash)

lemma get_embedding_file_path_ne_empty (item : KnowledgeItem) :
    get_embedding_file_path item ≠ "" := by
  intro h
  rw [get_embedding_file_path] at h
  have hd := congrArg String.data h
  rw [String.data_append, String.data_append, String.data_append,
    String.data_append] at hd
  simp at hd

lemma load_save (hash : String → String) (it : KnowledgeItem) (cs : List FileChunk) :
    load_embeddings_from_file (save_embeddings_to_file hash it cs) =
      some (EmbeddingFileData.mk (generate_content_hash hash it) cs) := by
  unfold load_embeddings_from_file save_embeddings_to_file
  dsimp only
  rw [if_neg (get_embedding_file_path_ne_empty it)]

lemma outdatedCheck_save_self (hash : String → String) (it : KnowledgeItem)
    (cs : List FileChunk) :
    outdatedCheck hash (save_embeddings_to_file hash it cs) = false := by
  have hsame : generate_content_hash hash (save_embeddings_to_file hash it cs) =
      generate_content_hash hash it := rfl
  unfold outdatedCheck
  rw [load_save, hsame]
  simp [get_embedding_file_path_ne_empty it]

lemma save_status (hash : String → String) (it : KnowledgeItem) (cs : List FileChunk) :
    (save_embeddings_to_file hash it cs).status = "completed" := rfl

lemma save_path (hash : String → String) (it : KnowledgeItem) (cs : List FileChunk) :
    (save_embeddings_to_file hash it cs).embedding_file_path =
      get_embedding_file_path it := rfl

/-- Whatever the embedding API does, an item that has just gone through
`generate_embeddings_for_item` is never reported outdated: on failure its
status is `error` (skipped by the validator), on success the freshly
stored hash is recomputed from the same content. -/
lemma outdatedCheck_generate (hash : String → String)
    (embed : String → Option (List ℝ)) (it : KnowledgeItem) :
    outdatedCheck hash (generate_embeddings_for_item hash embed it) = false := by
  unfold generate_embeddings_for_item
  dsimp only
  by_cases hsc : pyStrip (extract_text_content { it with status := "processing" }) = ""
  · rw [if_pos hsc]
    rfl
  · rw [if_neg hsc]
    by_cases hemb : ((chunk_text (extract_text_content { it with status := "processing" })
        1000 200).enum.filterMap (fun p =>
          (embed p.2).map (fun v => FileChunk.mk p.1 p.2 v))).isEmpty
    · rw [if_pos hemb]
      rfl
    · rw [if_neg hemb]
      exact outdatedCheck_save_self hash _ _

/-- Claim C5, freshness round-trip: saving embeddings for extracted
content `C` stores `hash C` in the file's metadata; changing the item's
content to a different `C'` makes `validate_embeddings_integrity` report
the item as outdated; after `refresh_embeddings_for_item` regenerates
from `C'`, the item is no longer reported (the md5 digest is abstracted
as an injective `hash`; the conclusion holds even without assuming the
embedding API succeeds, because a failed regeneration leaves the item in
`error` status, which the validator also skips). -/
theorem validate_embeddings_round_trip (hash : String → String)
    (hinj : Function.Injective hash) (embed : String → Option (List ℝ))
    (item : KnowledgeItem) (chunks : List FileChunk) (C C' : String)
    (hCne : C ≠ "") (hC'ne : C' ≠ "") (hdiff : C ≠ C') :
    ({ save_embeddings_to_file hash { item with content := C } chunks with content := C' } ∈
      validate_embeddings_integrity hash
        [{ save_embeddings_to_file hash { item with content := C } chunks with
            content := C' }]) ∧
    validate_embeddings_integrity hash
      [refresh_embeddings_for_item hash embed
        { save_embeddings_to_file hash { item with content := C } chunks with
            content := C' }] = [] := by
  have hstored : generate_content_hash hash { item with content := C } = hash C := by
    unfold generate_content_hash extract_text_content
    dsimp only
    rw [if_pos hCne]
  have hcurrent : generate_content_hash hash
      { save_embeddings_to_file hash { item with content := C } chunks with
        content := C' } = hash C' := by
    unfold generate_content_hash extract_text_content
    dsimp only
    rw [if_pos hC'ne]
  have hhne : hash C ≠ hash C' := fun hh => hdiff (hinj hh)
  constructor
  · apply List.mem_filter.mpr
    refine ⟨List.mem_singleton_self _, ?_⟩
    have hload : load_embeddings_from_file
        { save_embeddings_to_file hash { item with content := C } chunks with
          content := C' } =
        some (EmbeddingFileData.mk (generate_content_hash hash { item with content := C })
          chunks) := by
      unfold load_embeddings_from_file save_embeddings_to_file
      dsimp only
      rw [if_neg (get_embedding_file_path_ne_empty { item with content := C })]
    unfold outdatedCheck
    rw [hload]
    dsimp only
    rw [hstored, hcurrent]
    simp [save_status, save_path,
      get_embedding_file_path_ne_empty { item with content := C }, hhne]
  · have hcheck : outdatedCheck hash
        (refresh_embeddings_for_item hash embed
          { save_embeddings_to_file hash { item with content := C } chunks with
            content := C' }) = false := by
      unfold refresh_embeddings_for_item
      exact outdatedCheck_generate hash embed _
    unfold validate_embeddings_integrity
    rw [List.filter_cons_of_neg]
    · rfl
    · rw [hcheck]
      exact Bool.false_ne_true

/-- Witness for `validate_embeddings_round_trip`: identity digest,
always-succeeding embedding API, concrete item and contents. -/
theorem validate_embeddings_round_trip_witness :
    ({ save_embeddings_to_file (fun s => s)
        { KnowledgeItem.mk 1 1 "t" "" none "uploading" "" 0 none none with content := "aaa" }
        [] with content := "bbb" } ∈
      validate_embeddings_integrity (fun s => s)
        [{ save_embeddings_to_file (fun s => s)
            { KnowledgeItem.mk 1 1 "t" "" none "uploading" "" 0 none none with
              content := "aaa" } [] with content := "bbb" }]) ∧
    validate_embeddings_integrity (fun s => s)
      [refresh_embeddings_for_item (fun s => s) (fun _ => some [(1:ℝ)])
        { save_embeddings_to_file (fun s => s)
            { KnowledgeItem.mk 1 1 "t" "" none "uploading" "" 0 none none with
              content := "aaa" } [] with content := "bbb" }] = [] :=
  validate_embeddings_round_trip (fun s => s) (fun a b h => h) (fun _ => some [(1:ℝ)])
    (KnowledgeItem.mk 1 1 "t" "" none "uploading" "" 0 none none) [] "aaa" "bbb"
    (by decide) (by decide) (by decide)

/-- The `knowledge_base_post_delete` signal receiver: the filesystem is
modelled as the set of existing paths.  The embedding file is removed
when a path is recorded and the file exists; the uploaded source file
(`none` models a falsy `FieldFile`) is removed when it exists; both
removals are guarded, so missing files are never an error. -/
def knowledge_base_post_delete (fs : Finset String) (embedding_file_path : String)
    (uploaded : Option String) : Finset String :=
  let fs1 := if embedding_file_path ≠ "" ∧ embedding_file_path ∈ fs
    then fs.erase embedding_file_path else fs
  match uploaded with
  | some p => if p ∈ fs1 then fs1.erase p else fs1
  | none => fs1

/-- `EmbeddingService.delete_embeddings_for_item`: deletes the embedding
file if recorded and present, clears the embedding fields and resets the
status to `uploading` via a direct update. -/
def delete_embeddings_for_item (fs : Finset String) (item : KnowledgeItem) :
    Finset String × KnowledgeItem :=
  (if item.embedding_file_path ≠ "" ∧ item.embedding_file_path ∈ fs
    then fs.erase item.embedding_file_path else fs,
   { item with
      legacy := none,
      embedding_file_path := "",
      chunks_count := 0,
      status := "uploading",
      file := none })

lemma post_delete_embedding_not_mem (fs : Finset String) (emb : String)
    (up : Option String) (hne : emb ≠ "") :
    emb ∉ knowledge_base_post_delete fs emb up := by
  have h1 : emb ∉ (if emb ≠ "" ∧ emb ∈ fs then fs.erase emb else fs) := by
    by_cases hm : emb ∈ fs
    · rw [if_pos ⟨hne, hm⟩]
      exact Finset.not_mem_erase _ _
    · rw [if_neg (fun hh => hm hh.2)]
      exact hm
  rcases up with _ | p
  · unfold knowledge_base_post_delete
    dsimp only
    exact h1
  · unfold knowledge_base_post_delete
    dsimp only
    by_cases hp : p ∈ (if emb ≠ "" ∧ emb ∈ fs then fs.erase emb else fs)
    · rw [if_pos hp]
      intro hmem
      exact h1 (Finset.mem_of_mem_erase hmem)
    · rw [if_neg hp]
      exact h1

lemma post_delete_upload_not_mem (fs : Finset String) (emb p : String) :
    p ∉ knowledge_base_post_delete fs emb (some p) := by
  show p ∉ (if p ∈ (if emb ≠ "" ∧ emb ∈ fs then fs.erase emb else fs)
    then (if emb ≠ "" ∧ emb ∈ fs then fs.erase emb else fs).erase p
    else (if emb ≠ "" ∧ emb ∈ fs then fs.erase emb else fs))
  by_cases hp : p ∈ (if emb ≠ "" ∧ emb ∈ fs then fs.erase emb else fs)
  · rw [if_pos hp]
    exact Finset.not_mem_erase _ _
  · rw [if_neg hp]
    exact hp

lemma post_delete_noop (fs : Finset String) (emb : String) (up : Option String)
    (hemb : ¬(emb ≠ "" ∧ emb ∈ fs)) (hup : ∀ p, up = some p → p ∉ fs) :
    knowledge_base_post_delete fs emb up = fs := by
  rcases up with _ | p
  · unfold knowledge_base_post_delete
    dsimp only
    rw [if_neg hemb]
  · unfold knowledge_base_post_delete
    dsimp only
    have h1 : (if emb ≠ "" ∧ emb ∈ fs then fs.erase emb else fs) = fs := if_neg hemb
    rw [h1, if_neg (hup p rfl)]

/-- Claim C6: deleting a `KnowledgeBase` item removes both the on-disk
embedding file (when one was generated, i.e. the recorded path is
non-empty) and any uploaded source file, so that after the signal runs
neither exists; the operation is idempotent and is a no-op (not an
error) when the files are already missing; and the service-level
`delete_embeddings_for_item` likewise removes the embedding file and
clears the embedding fields. -/
theorem knowledge_base_post_delete_spec :
    (∀ (fs : Finset String) (emb : String) (up : Option String),
      emb ≠ "" → emb ∉ knowledge_base_post_delete fs emb up) ∧
    (∀ (fs : Finset String) (emb p : String),
      p ∉ knowledge_base_post_delete fs emb (some p)) ∧
    (∀ (fs : Finset String) (emb : String) (up : Option String),
      knowledge_base_post_delete (knowledge_base_post_delete fs emb up) emb up =
        knowledge_base_post_delete fs emb up) ∧
    (∀ (fs : Finset String) (emb : String) (up : Option String),
      emb ∉ fs → (∀ p, up = some p → p ∉ fs) →
      knowledge_base_post_delete fs emb up = fs) ∧
    (∀ (fs : Finset String) (item : KnowledgeItem),
      item.embedding_file_path ≠ "" →
      item.embedding_file_path ∉ (delete_embeddings_for_item fs item).1 ∧
      (delete_embeddings_for_item fs item).2.embedding_file_path = "" ∧
      (delete_embeddings_for_item fs item).2.status = "uploading") := by
  refine ⟨post_delete_embedding_not_mem, post_delete_upload_not_mem, ?_, ?_, ?_⟩
  · intro fs emb up
    apply post_delete_noop
    · intro hh
      exact post_delete_embedding_not_mem fs emb up hh.1 hh.2
    · intro p hp
      subst hp
      exact post_delete_upload_not_mem fs emb p
  · intro fs emb up hemb hup
    exact post_delete_noop fs emb up (fun hh => hemb hh.2) hup
  · intro fs item hne
    refine ⟨?_, rfl, rfl⟩
    unfold delete_embeddings_for_item
    dsimp only
    by_cases hm : item.embedding_file_path ∈ fs
    · rw [if_pos ⟨hne, hm⟩]
      exact Finset.not_mem_erase _ _
    · rw [if_neg (fun hh => hm hh.2)]
      exact hm

/-- Witness for `knowledge_base_post_delete_spec`: concrete filesystem
with both files present; after the signal neither remains. -/
theorem knowledge_base_post_delete_spec_witness :
    "a" ∉ knowledge_base_post_delete ({"a", "b"} : Finset String) "a" (some "b") ∧
    "b" ∉ knowledge_base_post_delete ({"a", "b"} : Finset String) "a" (some "b") :=
  ⟨knowledge_base_post_delete_spec.1 ({"a", "b"} : Finset String) "a" (some "b") (by decide),
   knowledge_base_post_delete_spec.2.1 ({"a", "b"} : Finset String) "a" "b"⟩
